import Mathlib

/-!
Verification of the daf_persistence object-persistence framework against its
natural-language specification.  The definitions below are shallow embeddings
of the C++ sources: `StorageRegistry.cc`, `FormatterRegistry.cc`,
`Persistence.cc`, `DbStorageImpl.cc` and `DateTime.cc`.  Machine integers are
modelled as `Int`/`Nat`; fallible code returns `Except`; the MySQL wire layer
and other external collaborators are abstracted to the data that crosses the
boundary.
-/

namespace DafPersistence

/-! ## StorageRegistry (src/src/StorageRegistry.cc) -/

/-- Storage subclasses dispatched by `StorageRegistry::createInstance`. -/
inductive FormatterStorageKind : Type
  | boostStorage
  | dbStorage
  | dbTsvStorage
  | fitsStorage
  | xmlStorage
deriving DecidableEq, Repr

/-- Embedding of `StorageRegistry::createInstance` (StorageRegistry.cc lines
80-97): an if/else chain over the five subclass names, throwing
`std::invalid_argument` (modelled as `Except.error`) on any other name. -/
def createInstance (name : String) : Except String FormatterStorageKind :=
  if name = "BoostStorage" then .ok .boostStorage
  else if name = "DbStorage" then .ok .dbStorage
  else if name = "DbTsvStorage" then .ok .dbTsvStorage
  else if name = "FitsStorage" then .ok .fitsStorage
  else if name = "XmlStorage" then .ok .xmlStorage
  else .error ("Invalid FormatterStorage type: " ++ name)

/-- Whether an `Except` result is a success. -/
def exceptOk {ε α : Type} : Except ε α → Bool
  | .ok _ => true
  | .error _ => false

/-! ## FormatterRegistry (src/src/FormatterRegistry.cc) -/

/-- Exception kinds from `pex_exceptions` relevant to the registry paths. -/
inductive ExcKind : Type
  | notFound
  | invalidParameter
deriving DecidableEq, Repr

/-- Association-list model of `std::map`: lookup returns the unique entry for
a key (entries are only ever added by `mapInsert`, which never duplicates a
key). -/
def mapFind {α : Type} (l : List (String × α)) (k : String) : Option α :=
  (l.find? (fun p => p.1 = k)).map (fun p => p.2)

/-- Model of `std::map::insert`: if the key is already present the map is
unchanged (the insertion is ignored); otherwise the pair is added. -/
def mapInsert {α : Type} (l : List (String × α)) (k : String) (v : α) :
    List (String × α) :=
  if (l.find? (fun p => p.1 = k)).isSome then l else l ++ [(k, v)]

/-- State of the `FormatterRegistry` singleton: the name-to-factory map
`_byName` and the type-name-to-persistable-name map `_nameForType`.
Factories are abstract values of type `φ`. -/
structure FormatterRegistry (φ : Type) : Type where
  byName : List (String × φ)
  nameForType : List (String × String)
deriving Repr

/-- Embedding of `FormatterRegistry::registerFormatter` (FormatterRegistry.cc
lines 67-73): one `insert` into each of the two maps.  The type identity is
represented by the string `typeid(...).name()` exactly as the source keys it. -/
def registerFormatter {φ : Type} (r : FormatterRegistry φ)
    (persistableName : String) (typeName : String) (factory : φ) :
    FormatterRegistry φ :=
  { byName := mapInsert r.byName persistableName factory,
    nameForType := mapInsert r.nameForType typeName persistableName }

/-- Embedding of the name-keyed `FormatterRegistry::lookupFormatter`
(FormatterRegistry.cc lines 99-113): a miss in `_byName` throws
`InvalidParameterException`; a hit returns the factory (which the source then
invokes on the formatter policy). -/
def lookupFormatterByName {φ : Type} (r : FormatterRegistry φ)
    (persistableName : String) : Except (ExcKind × String) φ :=
  match mapFind r.byName persistableName with
  | none => .error (.invalidParameter,
      "No Formatter registered for Persistable name: " ++ persistableName)
  | some f => .ok f

/-- Embedding of the identity-keyed `FormatterRegistry::lookupFormatter`
(FormatterRegistry.cc lines 81-93): a miss in `_nameForType` throws
`InvalidParameterException`; a hit delegates to the name-keyed lookup. -/
def lookupFormatterByType {φ : Type} (r : FormatterRegistry φ)
    (typeName : String) : Except (ExcKind × String) φ :=
  match mapFind r.nameForType typeName with
  | none => .error (.invalidParameter,
      "No Formatter registered for Persistable type: " ++ typeName)
  | some n => lookupFormatterByName r n

/-- Exception kind of a failed lookup, `none` on success. -/
def errKind {φ : Type} : Except (ExcKind × String) φ → Option ExcKind
  | .error e => some e.1
  | .ok _ => none

/-- The empty registry (state of the singleton before any registration). -/
def emptyFormatterRegistry : FormatterRegistry Nat := ⟨[], []⟩

/-! ## DbStorageImpl result-column bounds checks (src/src/DbStorageImpl.cc) -/

/-- Embedding of the bounds check of `DbStorageImpl::getColumnByPos`
(DbStorageImpl.cc lines 892-914 and the string/DateTime specializations): the
`Nonexistent column` error branch is taken when `pos > _numResultFields`;
otherwise the column fetch proceeds. -/
def getColumnByPosCheck (pos numResultFields : Int) : Except String Unit :=
  if pos > numResultFields then .error "Nonexistent column" else .ok ()

/-- Embedding of `DbStorageImpl::columnIsNull` (DbStorageImpl.cc lines
982-989): same bounds check, then the null flag of the column is returned. -/
def columnIsNull (pos numResultFields : Int) (fieldNulls : Int → Bool) :
    Except String Bool :=
  if pos > numResultFields then .error "Nonexistent column"
  else .ok (fieldNulls pos)

/-! ## DbStorageImpl input bindings and WHERE-clause scanning
(src/src/DbStorageImpl.cc)

Values of type `α` stand for the raw bytes a `setColumn<T>` specialization
copies into a binding's buffer; `BoundVarTraits` carries the per-type
constants of the `BoundVarTraits<T>` trait specializations. -/

/-- Per-type marshaling constants of the `BoundVarTraits<T>` template
specializations plus the buffer size a `setColumn<T>` specialization
computes (`sizeof(T)`, or `value.length()` for strings). -/
structure BoundVarTraits (α : Type) : Type where
  mysqlType : Nat
  isUnsigned : Bool
  size : α → Nat

/-- One entry of the `_inputVars` map: the `BoundVar` fields as left by
`setColumn` (the buffer content is the marshalled value). -/
structure BoundVar (α : Type) : Type where
  typeTag : Nat
  isNull : Bool
  isUnsigned : Bool
  length : Nat
  data : α
deriving DecidableEq, Repr

/-- The `_inputVars` member: one binding per column/parameter name. -/
def VarMap (α : Type) : Type := String → Option (BoundVar α)

/-- The empty `_inputVars` map. -/
def emptyVars {α : Type} : VarMap α := fun _ => none

/-- The binding entry a `setColumn<T>` call leaves under its name. -/
def mkBoundVar {α : Type} (tr : BoundVarTraits α) (v : α) : BoundVar α :=
  ⟨tr.mysqlType, false, tr.isUnsigned, tr.size v, v⟩

/-- Embedding of `DbStorageImpl::setColumn` (DbStorageImpl.cc lines
351-369 and its specializations): find-or-insert the entry for the column
name, then overwrite every field of the entry with the new type tag,
null flag, unsignedness, size and value bytes. -/
def setColumn {α : Type} (tr : BoundVarTraits α) (m : VarMap α)
    (columnName : String) (value : α) : VarMap α :=
  fun k => if k = columnName then some (mkBoundVar tr value) else m k

/-- Embedding of `DbStorageImpl::condParam` (DbStorageImpl.cc lines
629-632): its body is exactly a call to `setColumn<T>`. -/
def condParam {α : Type} (tr : BoundVarTraits α) (m : VarMap α)
    (paramName : String) (value : α) : VarMap α :=
  setColumn tr m paramName value

/-- Model of `BoundVarTraits<int>`: tag `MYSQL_TYPE_LONG`, signed,
`sizeof(int)` bytes; int values are modelled as `Nat`. -/
def intBoundVarTraits : BoundVarTraits Nat := ⟨3, false, fun _ => 4⟩

/-- A sequence of `condParam` declarations applied in call order. -/
def applyCondParams {α : Type} (tr : BoundVarTraits α)
    (ps : List (String × α)) (m : VarMap α) : VarMap α :=
  ps.foldl (fun acc p => condParam tr acc p.1 p.2) m

/-- Character class of the regex `:([A-Za-z_]+)` used by
`DbStorageImpl::query` to find WHERE parameter tokens. -/
def isWordChar (c : Char) : Bool :=
  (decide ('A' ≤ c) && decide (c ≤ 'Z'))
    || (decide ('a' ≤ c) && decide (c ≤ 'z')) || c == '_'

/-- Whether the scan position starts an identifier (the regex requires at
least one word character after the colon). -/
def headIsWordChar : List Char → Bool
  | [] => false
  | c :: _ => isWordChar c

/-- Embedding of the left-to-right regex iteration over the WHERE text in
`DbStorageImpl::query` (DbStorageImpl.cc lines 694-712): every `:identifier`
token is replaced by a `?` placeholder and its identifier is appended to
`whereBindings`; all other characters are copied through.  The iteration is
driven by a character-count fuel so that it is structurally recursive; the
wrapper below supplies fuel equal to the text length, which the loop never
exhausts. -/
def scanWhereFuel : Nat → List Char → List Char × List String
  | 0, l => (l, [])
  | _ + 1, [] => ([], [])
  | fuel + 1, c :: rest =>
    if (c == ':') && headIsWordChar rest then
      let ident := rest.takeWhile isWordChar
      let p := scanWhereFuel fuel (rest.dropWhile isWordChar)
      ('?' :: p.1, ident.asString :: p.2)
    else
      let p := scanWhereFuel fuel rest
      (c :: p.1, p.2)

/-- The WHERE scan: rewritten text and the token list in text order. -/
def scanWhere (l : List Char) : List Char × List String :=
  scanWhereFuel l.length l

/-- Embedding of the WHERE-parameter binding loop of `DbStorageImpl::query`
(DbStorageImpl.cc lines 725-745): for each recorded token in order, look the
name up in `_inputVars` and bind that entry, erroring on the first token
with no binding. -/
def bindEach {α : Type} (m : VarMap α) :
    List String → Except String (List (BoundVar α))
  | [] => .ok []
  | t :: ts =>
    match m t with
    | none => .error ("Unbound variable in WHERE clause: " ++ t)
    | some bv =>
      match bindEach m ts with
      | .error e => .error e
      | .ok bvs => .ok (bv :: bvs)

/-- The WHERE-clause stage of `DbStorageImpl::query`: with an empty WHERE
text nothing is scanned or bound; otherwise the text is scanned and every
token is bound in token order. -/
def queryWhereStage {α : Type} (m : VarMap α) (whereClause : String) :
    Except String (String × List (BoundVar α)) :=
  if whereClause.isEmpty then .ok ("", [])
  else
    let p := scanWhere whereClause.toList
    match bindEach m p.2 with
    | .error e => .error e
    | .ok bvs => .ok (p.1.asString, bvs)

/-! ## Persistence orchestrator (src/src/Persistence.cc)

The orchestrator drives an abstract Formatter over a list of Storage
handles.  Calls into the Storage and Formatter objects are recorded as an
event trace; the object built by `read`/`update` is threaded explicitly. -/

/-- Calls made by the orchestrator on Storage handles (of abstract type `σ`)
and on the resolved Formatter. -/
inductive Event (σ : Type) : Type
  | startTransaction (s : σ)
  | write (s : σ)
  | endTransaction (s : σ)
  | readCall (s : σ)
  | updateCall (s : σ)
deriving DecidableEq, Repr

/-- Embedding of `Persistence::persist` (Persistence.cc lines 91-120) as the
trace of Storage/Formatter calls it makes: one loop doing
`startTransaction` (when `iter = 0`) immediately followed by the formatter
`write` on each Storage in list order, then (when `iter = len - 1`) a second
loop calling `endTransaction` on each Storage in list order. -/
def persistTrace {σ : Type} (storageList : List σ) (iter len : Int) :
    List (Event σ) :=
  storageList.flatMap
    (fun s => (if iter = 0 then [Event.startTransaction s] else [])
      ++ [Event.write s])
  ++ (if iter = len - 1 then storageList.map Event.endTransaction else [])

/-- Loop of `Persistence::unsafeRetrieve` (Persistence.cc lines 144-154):
for each Storage, `startTransaction` then either the formatter `read` (while
no object exists yet) or the formatter `update` of the existing object.
Returns the trace of the loop and the final object. -/
def retrieveLoop {σ π : Type} (rd : σ → π) (upd : π → σ → π) :
    Option π → List σ → List (Event σ) × Option π
  | obj, [] => ([], obj)
  | none, s :: rest =>
    let p := retrieveLoop rd upd (some (rd s)) rest
    (Event.startTransaction s :: Event.readCall s :: p.1, p.2)
  | some o, s :: rest =>
    let p := retrieveLoop rd upd (some (upd o s)) rest
    (Event.startTransaction s :: Event.updateCall s :: p.1, p.2)

/-- Embedding of `Persistence::unsafeRetrieve` (Persistence.cc lines
131-160): the read/update loop over the storage list starting with no
object, followed by `endTransaction` on every Storage in list order.  The
formatter is abstracted by its `read` and in-place `update` functions. -/
def unsafeRetrieve {σ π : Type} (rd : σ → π) (upd : π → σ → π)
    (storageList : List σ) : List (Event σ) × Option π :=
  let p := retrieveLoop rd upd none storageList
  (p.1 ++ storageList.map Event.endTransaction, p.2)

/-- Recognizer for formatter `read` events. -/
def isReadCall {σ : Type} : Event σ → Bool
  | .readCall _ => true
  | _ => false

/-- Recognizer for formatter `update` events. -/
def isUpdateCall {σ : Type} : Event σ → Bool
  | .updateCall _ => true
  | _ => false

/-- Recognizer for `startTransaction` events. -/
def isStart {σ : Type} : Event σ → Bool
  | .startTransaction _ => true
  | _ => false

/-- Recognizer for `write` events. -/
def isWrite {σ : Type} : Event σ → Bool
  | .write _ => true
  | _ => false

/-- Recognizer for `endTransaction` events. -/
def isEnd {σ : Type} : Event σ → Bool
  | .endTransaction _ => true
  | _ => false

/-- Field-map model of a Persistable used to state the overwrite property:
the object maps field names to optionally populated values, the formatter
`read` populates exactly the fields its Storage supplies, and `update`
overwrites exactly the fields its Storage supplies. -/
def fieldRead (supplies : Nat → String → Option Nat) (s : Nat) :
    String → Option Nat :=
  fun fld => supplies s fld

/-- Field-map model of the formatter `update`: fields supplied by the
Storage overwrite the object's current values; others are kept. -/
def fieldUpdate (supplies : Nat → String → Option Nat)
    (o : String → Option Nat) (s : Nat) : String → Option Nat :=
  fun fld => match supplies s fld with
    | some v => some v
    | none => o fld

/-- The value of a field after the whole list: the value supplied by the
last Storage in the list that supplies it, if any. -/
def lastSupplied (supplies : Nat → String → Option Nat) (l : List Nat)
    (fld : String) : Option Nat :=
  (l.reverse.find? (fun s => (supplies s fld).isSome)).bind
    (fun s => supplies s fld)

/-! ## DateTime leap-second conversions (src/src/DateTime.cc) -/

/-- Nanoseconds per day (`LL_NSEC_PER_DAY`). -/
def LL_NSEC_PER_DAY : Int := 86400000000000

/-- The hand-maintained leap-second table `leapSecTable` of
(days-since-epoch threshold, cumulative TAI-UTC seconds) rows, ascending
(DateTime.cc lines 77-85). -/
def leapSecTable : List (Int × Int) :=
  [(730, 10), (912, 11), (1096, 12), (1461, 13),
   (1826, 14), (2191, 15), (2557, 16), (2922, 17),
   (3287, 18), (3652, 19), (4199, 20), (4564, 21),
   (4929, 22), (5660, 23), (6574, 24), (7305, 25),
   (7670, 26), (8217, 27), (8582, 28), (8947, 29),
   (9496, 30), (10043, 31), (10592, 32), (13149, 33)]

/-- `LEAP_SECS`: number of rows in the table. -/
def LEAP_SECS : Nat := leapSecTable.length

/-- A row's threshold in days since the epoch (C array indexing). -/
def leapWhen (i : Nat) : Int := (leapSecTable.getD i (0, 0)).1

/-- A row's cumulative offset in seconds (C array indexing). -/
def leapSecs (i : Nat) : Int := (leapSecTable.getD i (0, 0)).2

/-- The `for (int i = 1; i < LEAP_SECS - 1; ++i)` loop body of
`DateTime::utc2tai` (DateTime.cc lines 118-122), iterated over the index
list: the first index `i` whose threshold exceeds the instant selects row
`i - 1`; if no tested index does, the final row's offset is used. -/
def utc2taiScan (nsecs : Int) : List Nat → Int
  | [] => leapSecs (LEAP_SECS - 1)
  | i :: rest =>
    if nsecs < leapWhen i * LL_NSEC_PER_DAY then leapSecs (i - 1)
    else utc2taiScan nsecs rest

/-- The correction chosen by `DateTime::utc2tai` (DateTime.cc lines
114-125): `none` for the pre-table branch (the empirical double-precision
formula, abstracted since the claim concerns only which branch runs);
`some k` when the table branch subtracts `k` seconds.  The loop indices are
`1 .. LEAP_SECS - 2`, matching `i < LEAP_SECS - 1`. -/
def utc2taiOffset (nsecs : Int) : Option Int :=
  if nsecs < leapWhen 0 * LL_NSEC_PER_DAY then none
  else some (utc2taiScan nsecs (List.range' 1 (LEAP_SECS - 2)))

/-- The loop body of `DateTime::tai2utc` (DateTime.cc lines 140-146): same
scan with each row's threshold shifted by its own offset. -/
def tai2utcScan (nsecs : Int) : List Nat → Int
  | [] => leapSecs (LEAP_SECS - 1)
  | i :: rest =>
    if nsecs < leapWhen i * LL_NSEC_PER_DAY + leapSecs i * 1000000000 then
      leapSecs (i - 1)
    else tai2utcScan nsecs rest

/-- The correction chosen by `DateTime::tai2utc` (DateTime.cc lines
133-148), in the same encoding as `utc2taiOffset`. -/
def tai2utcOffset (nsecs : Int) : Option Int :=
  if nsecs < leapWhen 0 * LL_NSEC_PER_DAY + leapSecs 0 * 1000000000 then none
  else some (tai2utcScan nsecs (List.range' 1 (LEAP_SECS - 2)))

/-- The covering row in the specification's words: the table row with the
greatest threshold not exceeding the instant (UTC side); `none` before the
first breakpoint. -/
def specCoveringOffsetUTC (nsecs : Int) : Option Int :=
  ((leapSecTable.filter (fun p => p.1 * LL_NSEC_PER_DAY ≤ nsecs)).getLast?).map
    (fun p => p.2)

/-- The covering row in the specification's words on the TAI side: each
row's threshold is its breakpoint day plus its own cumulative offset. -/
def specCoveringOffsetTAI (nsecs : Int) : Option Int :=
  ((leapSecTable.filter
      (fun p => p.1 * LL_NSEC_PER_DAY + p.2 * 1000000000 ≤ nsecs)).getLast?).map
    (fun p => p.2)

/-! ## TemporalValue civil-record marshaling
(src/src/DbStorageImpl.cc, `setColumn<DateTime>` lines 391-419 and `next()`
lines 848-886)

The civil-calendar conversions these call (`DateTime::gmtime` and the
civil-field `DateTime` constructor) live in the external daf_base package,
outside this repository's sources, so they are modelled from the spec as the
standard proleptic-Gregorian civil calendar ("a uniform civil calendar", the
spec says, with "timescale bookkeeping the caller's responsibility").  The
`cfd*` helpers are the civil-from-days direction, the `dfc*` helpers the
days-from-civil direction; Lean's `Int` division is Euclidean, which on
these nonnegative intermediate quantities coincides with the C division the
algorithms use. -/

/-- Modelled from the spec: 400-year era of an epoch-day count (day 0 =
1970-01-01, eras counted from 0000-03-01). -/
def cfdEra (days : Int) : Int := (days + 719468) / 146097

/-- Modelled from the spec: day within the 400-year era, in [0, 146096]. -/
def cfdDoe (days : Int) : Int := days + 719468 - cfdEra days * 146097

/-- Modelled from the spec: year within the era, in [0, 399]. -/
def cfdYoe (days : Int) : Int :=
  (cfdDoe days - cfdDoe days / 1460 + cfdDoe days / 36524 -
    cfdDoe days / 146096) / 365

/-- Modelled from the spec: day within the March-based year. -/
def cfdDoy (days : Int) : Int :=
  cfdDoe days - (365 * cfdYoe days + cfdYoe days / 4 - cfdYoe days / 100)

/-- Modelled from the spec: March-based month index, in [0, 11]. -/
def cfdMp (days : Int) : Int := (5 * cfdDoy days + 2) / 153

/-- Modelled from the spec: civil day of month, in [1, 31]. -/
def cfdDay (days : Int) : Int :=
  cfdDoy days - (153 * cfdMp days + 2) / 5 + 1

/-- Modelled from the spec: civil month, in [1, 12]. -/
def cfdMonth (days : Int) : Int :=
  cfdMp days + (if cfdMp days < 10 then 3 else -9)

/-- Modelled from the spec: civil year. -/
def cfdYear (days : Int) : Int :=
  if cfdMonth days ≤ 2 then cfdYoe days + cfdEra days * 400 + 1
  else cfdYoe days + cfdEra days * 400

/-- Modelled from the spec: epoch days to civil (year, month, day), the
conversion `DateTime::gmtime` performs for the date fields. -/
def civilFromDays (days : Int) : Int × Int × Int :=
  (cfdYear days, cfdMonth days, cfdDay days)

/-- Modelled from the spec: shifted year used by the days-from-civil
direction. -/
def dfcY2 (y m : Int) : Int := if m ≤ 2 then y - 1 else y

/-- Modelled from the spec: era of a civil date. -/
def dfcEra (y m : Int) : Int := dfcY2 y m / 400

/-- Modelled from the spec: year of era of a civil date. -/
def dfcYoe (y m : Int) : Int := dfcY2 y m - dfcEra y m * 400

/-- Modelled from the spec: day of the March-based year of a civil date. -/
def dfcDoy (m d : Int) : Int :=
  (153 * (m + (if 2 < m then -3 else 9)) + 2) / 5 + d - 1

/-- Modelled from the spec: day of era of a civil date. -/
def dfcDoe (y m d : Int) : Int :=
  dfcYoe y m * 365 + dfcYoe y m / 4 - dfcYoe y m / 100 + dfcDoy m d

/-- Modelled from the spec: civil (year, month, day) to epoch days, the
conversion the civil-field `DateTime` constructor performs. -/
def daysFromCivil (y m d : Int) : Int :=
  dfcEra y m * 146097 + dfcDoe y m d - 719468

/-- The `MYSQL_TIME` record as filled by `setColumn<DateTime>`: six civil
fields, a negative flag, and the sub-second remainder in microseconds. -/
structure MysqlTime : Type where
  year : Int
  month : Int
  day : Int
  hour : Int
  minute : Int
  second : Int
  neg : Bool
  second_part : Int
deriving DecidableEq, Repr

/-- Embedding of `setColumn<DateTime>` (DbStorageImpl.cc lines 391-419):
the value's whole seconds are decomposed into the six civil fields via the
(spec-modelled) civil calendar, and the sub-second remainder is stored in
`second_part` as microseconds: `(nsecs % 1000000000) / 1000`. -/
def setColumnDateTime (nsecs : Int) : MysqlTime :=
  let secs := nsecs / 1000000000
  let c := civilFromDays (secs / 86400)
  { year := c.1, month := c.2.1, day := c.2.2,
    hour := secs % 86400 / 3600,
    minute := secs % 86400 % 3600 / 60,
    second := secs % 86400 % 60,
    neg := false,
    second_part := nsecs % 1000000000 / 1000 }

/-- Embedding of the DateTime fixup in `DbStorageImpl::next` (DbStorageImpl.cc
lines 874-880): the caller-bound TemporalValue is rebuilt from the record's
six civil fields only — `second_part` is not read — via the (spec-modelled)
civil calendar. -/
def nextDateTime (t : MysqlTime) : Int :=
  (daysFromCivil t.year t.month t.day * 86400 + t.hour * 3600 +
    t.minute * 60 + t.second) * 1000000000

end DafPersistence

open DafPersistence

/-- Helper: `mapFind` is the mapped `find?`, so absence of the mapped value
is absence of the entry. -/
theorem find?_of_mapFind_none {α : Type} (l : List (String × α)) (k : String)
    (h : mapFind l k = none) : l.find? (fun p => p.1 = k) = none := by
  cases hf : l.find? (fun p => p.1 = k) with
  | none => rfl
  | some p => simp [mapFind, hf] at h

/-- Helper: a key freshly appended to a map is found when it was absent. -/
theorem mapFind_append_self {α : Type} (l : List (String × α)) (k : String)
    (v : α) (h : mapFind l k = none) : mapFind (l ++ [(k, v)]) k = some v := by
  simp [mapFind, List.find?_append, find?_of_mapFind_none l k h]

/-- Helper: inserting under a key that is already present leaves the map
unchanged (the `std::map::insert` no-op). -/
theorem mapInsert_present {α : Type} (l : List (String × α)) (k : String)
    (v : α) (h : (mapFind l k).isSome = true) : mapInsert l k v = l := by
  unfold mapInsert
  cases hf : l.find? (fun p => p.1 = k) with
  | none => simp [mapFind, hf] at h
  | some p => simp [hf]


/-- C6: `StorageRegistry.createInstance` rejects the specification's
descriptive backend name `archive-file` (and the other four descriptive
names), contrary to the claim that it succeeds on them. -/
theorem storageRegistry_spec_names_rejected :
    exceptOk (createInstance "archive-file") = false ∧
    exceptOk (createInstance "xml-file") = false ∧
    exceptOk (createInstance "relational-database") = false ∧
    exceptOk (createInstance "bulk-load-database") = false ∧
    exceptOk (createInstance "flat-image") = false := by
  decide

/-- C6 (amended): `StorageRegistry.createInstance` succeeds exactly on the
five subclass name strings `BoostStorage`, `DbStorage`, `DbTsvStorage`,
`FitsStorage`, `XmlStorage`, returning the corresponding Storage variant for
each, and raises `std::invalid_argument` for every other name string. -/
theorem storageRegistry_createInstance_five_names :
    (∀ name : String, exceptOk (createInstance name) = true ↔
      (name = "BoostStorage" ∨ name = "DbStorage" ∨ name = "DbTsvStorage" ∨
       name = "FitsStorage" ∨ name = "XmlStorage")) ∧
    createInstance "BoostStorage" = .ok .boostStorage ∧
    createInstance "DbStorage" = .ok .dbStorage ∧
    createInstance "DbTsvStorage" = .ok .dbTsvStorage ∧
    createInstance "FitsStorage" = .ok .fitsStorage ∧
    createInstance "XmlStorage" = .ok .xmlStorage := by
  refine ⟨fun name => ?_, rfl, rfl, rfl, rfl, rfl⟩
  unfold createInstance exceptOk
  split_ifs with h1 h2 h3 h4 h5 <;> simp_all

/-- C5: on an unregistered name and an unregistered type identity, both
`FormatterRegistry::lookupFormatter` entry points raise the InvalidParameter
exception kind, which is not the NotFound kind the claim asserts. -/
theorem formatterRegistry_lookup_notFound_counterexample :
    errKind (lookupFormatterByName emptyFormatterRegistry "Foo") =
      some ExcKind.invalidParameter ∧
    errKind (lookupFormatterByType emptyFormatterRegistry "3Foo") =
      some ExcKind.invalidParameter ∧
    ExcKind.invalidParameter ≠ ExcKind.notFound := by
  decide

/-- C5 (amended): for every type identity and every name under which no
Formatter has been registered, both FormatterRegistry lookup entry points
raise the InvalidParameter error kind (not NotFound). -/
theorem formatterRegistry_unregistered_invalidParameter :
    ∀ (φ : Type) (r : FormatterRegistry φ) (name typeName : String),
      (mapFind r.byName name = none →
        errKind (lookupFormatterByName r name) = some ExcKind.invalidParameter)
      ∧ (mapFind r.nameForType typeName = none →
        errKind (lookupFormatterByType r typeName) =
          some ExcKind.invalidParameter) := by
  intro φ r name typeName
  constructor <;> intro h <;>
    simp [lookupFormatterByName, lookupFormatterByType, errKind, h]

/-- C5 witness: the amended theorem applied to the empty registry and the
unregistered name `Foo`. -/
theorem formatterRegistry_unregistered_invalidParameter_witness :
    errKind (lookupFormatterByName emptyFormatterRegistry "Foo") =
      some ExcKind.invalidParameter :=
  (formatterRegistry_unregistered_invalidParameter Nat emptyFormatterRegistry
    "Foo" "T").1 (by decide)

/-- C8: registration is first-write-wins: an insertion under a persistable
name already in `_byName` leaves that map unchanged, an insertion under a
type identity already in `_nameForType` leaves that map unchanged, and after
a fresh registration a repeated registration of the same name and identity is
a complete no-op, so both lookups still return the factory from the first
registration. -/
theorem registerFormatter_first_write_wins :
    ∀ (φ : Type) (r : FormatterRegistry φ) (name tyName name2 : String)
      (f g : φ),
      ((mapFind r.byName name).isSome = true →
        (registerFormatter r name tyName g).byName = r.byName)
      ∧ ((mapFind r.nameForType tyName).isSome = true →
        (registerFormatter r name2 tyName g).nameForType = r.nameForType)
      ∧ (mapFind r.byName name = none → mapFind r.nameForType tyName = none →
          registerFormatter (registerFormatter r name tyName f) name tyName g =
            registerFormatter r name tyName f
          ∧ lookupFormatterByName
              (registerFormatter (registerFormatter r name tyName f) name
                tyName g) name = .ok f
          ∧ lookupFormatterByType
              (registerFormatter (registerFormatter r name tyName f) name
                tyName g) tyName = .ok f) := by
  intro φ r name tyName name2 f g
  refine ⟨fun h => ?_, fun h => ?_, fun h1 h2 => ?_⟩
  · simp [registerFormatter, mapInsert_present r.byName name g h]
  · simp [registerFormatter, mapInsert_present r.nameForType tyName name2 h]
  · have hb : mapFind (registerFormatter r name tyName f).byName name =
        some f := by
      simp only [registerFormatter, mapInsert,
        find?_of_mapFind_none r.byName name h1, Option.isSome_none,
        Bool.false_eq_true, if_false]
      exact mapFind_append_self r.byName name f h1
    have ht : mapFind (registerFormatter r name tyName f).nameForType tyName =
        some name := by
      simp only [registerFormatter, mapInsert,
        find?_of_mapFind_none r.nameForType tyName h2, Option.isSome_none,
        Bool.false_eq_true, if_false]
      exact mapFind_append_self r.nameForType tyName name h2
    have hno : registerFormatter (registerFormatter r name tyName f) name
        tyName g = registerFormatter r name tyName f := by
      show FormatterRegistry.mk
        (mapInsert (registerFormatter r name tyName f).byName name g)
        (mapInsert (registerFormatter r name tyName f).nameForType tyName
          name) = registerFormatter r name tyName f
      rw [mapInsert_present (registerFormatter r name tyName f).byName name g
          (by rw [hb]; rfl),
        mapInsert_present (registerFormatter r name tyName f).nameForType
          tyName name (by rw [ht]; rfl)]
    refine ⟨hno, ?_, ?_⟩
    · rw [hno]
      simp [lookupFormatterByName, hb]
    · rw [hno]
      simp [lookupFormatterByType, ht, lookupFormatterByName, hb]

/-- C8 witness: registering `P` twice (factories 1 then 2) on the empty
registry keeps the first factory on both lookup paths. -/
theorem registerFormatter_first_write_wins_witness :
    registerFormatter (registerFormatter emptyFormatterRegistry "P" "T" 1)
      "P" "T" 2 = registerFormatter emptyFormatterRegistry "P" "T" 1 ∧
    lookupFormatterByName (registerFormatter
      (registerFormatter emptyFormatterRegistry "P" "T" 1) "P" "T" 2) "P" =
      .ok 1 ∧
    lookupFormatterByType (registerFormatter
      (registerFormatter emptyFormatterRegistry "P" "T" 1) "P" "T" 2) "T" =
      .ok 1 :=
  (registerFormatter_first_write_wins Nat emptyFormatterRegistry "P" "T" "X"
    1 2).2.2 (by decide) (by decide)

/-- Helper: a successful binding pass means every token was looked up in
`_inputVars` and bound, in token order. -/
theorem bindEach_ok {α : Type} (m : VarMap α) :
    ∀ (ts : List String) (bvs : List (BoundVar α)),
      bindEach m ts = .ok bvs →
      List.Forall₂ (fun t bv => m t = some bv) ts bvs := by
  intro ts
  induction ts with
  | nil =>
    intro bvs h
    simp only [bindEach, Except.ok.injEq] at h
    rw [← h]
    exact List.Forall₂.nil
  | cons t ts ih =>
    intro bvs h
    cases hm : m t with
    | none =>
      simp only [bindEach, hm] at h
      exact Except.noConfusion h
    | some bv =>
      cases hr : bindEach m ts with
      | error e =>
        simp only [bindEach, hm, hr] at h
        exact Except.noConfusion h
      | ok l =>
        simp only [bindEach, hm, hr, Except.ok.injEq] at h
        rw [← h]
        exact List.Forall₂.cons hm (ih l hr)

/-- Helper: with pairwise-distinct parameter names, the final `_inputVars`
map holds, under each declared name, exactly the value declared for it, and
is untouched elsewhere. -/
theorem applyCondParams_lookup {α : Type} (tr : BoundVarTraits α) :
    ∀ (ps : List (String × α)) (m : VarMap α) (k : String),
      (ps.map Prod.fst).Nodup →
      ((∀ v, (k, v) ∈ ps →
          applyCondParams tr ps m k = some (mkBoundVar tr v))
        ∧ (k ∉ ps.map Prod.fst → applyCondParams tr ps m k = m k)) := by
  intro ps
  induction ps with
  | nil =>
    intro m k _
    exact ⟨fun v hv => absurd hv (List.not_mem_nil _), fun _ => rfl⟩
  | cons p t ih =>
    intro m k hnd
    have hnd' : (t.map Prod.fst).Nodup := (List.nodup_cons.mp hnd).2
    have hp1 : p.1 ∉ t.map Prod.fst := (List.nodup_cons.mp hnd).1
    have hstep : applyCondParams tr (p :: t) m =
        applyCondParams tr t (condParam tr m p.1 p.2) := rfl
    constructor
    · intro v hv
      rcases List.mem_cons.mp hv with heq | hmem
      · obtain ⟨hk, hv2⟩ : k = p.1 ∧ v = p.2 := by
          cases p
          exact ⟨congrArg Prod.fst heq.symm ▸ rfl,
            congrArg Prod.snd heq.symm ▸ rfl⟩
        rw [hstep, (ih (condParam tr m p.1 p.2) k hnd').2 (hk ▸ hp1)]
        simp [condParam, setColumn, hk, hv2]
      · have hkmem : k ∈ t.map Prod.fst :=
          List.mem_map.mpr ⟨(k, v), hmem, rfl⟩
        rw [hstep]
        exact (ih (condParam tr m p.1 p.2) k hnd').1 v hmem
    · intro hk
      have hk1 : k ≠ p.1 := fun he => hk (by simp [he])
      have hk2 : k ∉ t.map Prod.fst := fun he => hk (by simp [he])
      rw [hstep, (ih (condParam tr m p.1 p.2) k hnd').2 hk2]
      simp [condParam, setColumn, hk1]

/-- C10: on the relational-database Storage, `condParam(name, value)` is
the very same operation as `setColumn(name, value)` (its body is that one
call): both store into the single `_inputVars` map, so a WHERE parameter
and a pending insert column with the same name share one binding, and
whichever of the two calls happens later overwrites the earlier value. -/
theorem dbStorage_condParam_is_setColumn :
    ∀ (α : Type) (tr : BoundVarTraits α) (m : VarMap α) (name : String)
      (v v2 : α),
      condParam tr m name v = setColumn tr m name v
      ∧ (setColumn tr (condParam tr m name v) name v2) name =
          some (mkBoundVar tr v2)
      ∧ (condParam tr (setColumn tr m name v) name v2) name =
          some (mkBoundVar tr v2)
      ∧ ∀ k, k ≠ name → (condParam tr m name v) k = m k := by
  intro α tr m name v v2
  refine ⟨rfl, by simp [condParam, setColumn], by simp [condParam, setColumn],
    fun k hk => by simp [condParam, setColumn, hk]⟩

/-- C1: in `DbStorageImpl::query` the WHERE text is scanned left-to-right
for `:identifier` tokens, each replaced by a `?` placeholder, and the value
bound at each placeholder position is the `_inputVars` entry whose name is
that position's token — so binding order follows token order in the text
and is independent of the order of the `condParam` calls that populated the
map (their names being distinct); in particular for WHERE text
`b = :y AND a = :x` with `condParam("x",1)` then `condParam("y",2)`, value 2
is bound at the first placeholder and value 1 at the second, and likewise
with the two declarations swapped. -/
theorem dbStorage_query_where_binding_order :
    (∀ (α : Type) (m : VarMap α) (w rewritten : String)
        (bvs : List (BoundVar α)),
        queryWhereStage m w = .ok (rewritten, bvs) →
          rewritten = ((scanWhere w.toList).1).asString
          ∧ List.Forall₂ (fun t bv => m t = some bv)
              (scanWhere w.toList).2 bvs)
    ∧ (∀ (α : Type) (tr : BoundVarTraits α) (ps1 ps2 : List (String × α))
        (m : VarMap α) (k : String), ps1.Perm ps2 →
          (ps1.map Prod.fst).Nodup →
          applyCondParams tr ps1 m k = applyCondParams tr ps2 m k)
    ∧ queryWhereStage
        (applyCondParams intBoundVarTraits [("x", 1), ("y", 2)] emptyVars)
        "b = :y AND a = :x"
        = .ok ("b = ? AND a = ?",
            [mkBoundVar intBoundVarTraits 2, mkBoundVar intBoundVarTraits 1])
    ∧ queryWhereStage
        (applyCondParams intBoundVarTraits [("y", 2), ("x", 1)] emptyVars)
        "b = :y AND a = :x"
        = .ok ("b = ? AND a = ?",
            [mkBoundVar intBoundVarTraits 2,
             mkBoundVar intBoundVarTraits 1]) := by
  refine ⟨?_, ?_, rfl, rfl⟩
  · intro α m w rewritten bvs h
    unfold queryWhereStage at h
    by_cases he : w.isEmpty
    · rw [if_pos he] at h
      obtain ⟨h1, h2⟩ : "" = rewritten ∧ ([] : List (BoundVar α)) = bvs := by
        have := Except.ok.inj h
        exact ⟨congrArg Prod.fst this, congrArg Prod.snd this⟩
      have hw : w = "" := (String.isEmpty_iff w).mp he
      subst hw
      rw [← h1, ← h2]
      exact ⟨rfl, List.Forall₂.nil⟩
    · rw [if_neg he] at h
      cases hb : bindEach m (scanWhere w.toList).2 with
      | error e =>
        simp only [hb] at h
        exact Except.noConfusion h
      | ok l =>
        simp only [hb, Except.ok.injEq] at h
        obtain ⟨h1, h2⟩ : ((scanWhere w.toList).1).asString = rewritten ∧
            l = bvs :=
          ⟨congrArg Prod.fst h, congrArg Prod.snd h⟩
        rw [← h1, ← h2]
        exact ⟨rfl, bindEach_ok m _ l hb⟩
  · intro α tr ps1 ps2 m k hperm hnd
    have hnd2 : (ps2.map Prod.fst).Nodup := (hperm.map Prod.fst).nodup_iff.mp hnd
    by_cases hk : k ∈ ps1.map Prod.fst
    · obtain ⟨p, hp, hpk⟩ := List.mem_map.mp hk
      have hp1 : (k, p.2) ∈ ps1 := by
        cases p
        cases hpk
        exact hp
      have hp2 : (k, p.2) ∈ ps2 := hperm.mem_iff.mp hp1
      rw [(applyCondParams_lookup tr ps1 m k hnd).1 p.2 hp1,
        (applyCondParams_lookup tr ps2 m k hnd2).1 p.2 hp2]
    · have hk2 : k ∉ ps2.map Prod.fst := fun hmem =>
        hk ((hperm.map Prod.fst).mem_iff.mpr hmem)
      rw [(applyCondParams_lookup tr ps1 m k hnd).2 hk,
        (applyCondParams_lookup tr ps2 m k hnd2).2 hk2]

/-- C1 witness: the binding-correspondence part applied to the concrete
out-of-order example, and the order-independence part applied to the two
concrete declaration orders. -/
theorem dbStorage_query_where_binding_order_witness :
    (("b = ? AND a = ?" : String) =
        ((scanWhere ("b = :y AND a = :x").toList).1).asString
      ∧ List.Forall₂
          (fun t bv =>
            applyCondParams intBoundVarTraits [("x", 1), ("y", 2)] emptyVars
              t = some bv)
          (scanWhere ("b = :y AND a = :x").toList).2
          [mkBoundVar intBoundVarTraits 2, mkBoundVar intBoundVarTraits 1])
    ∧ applyCondParams intBoundVarTraits [("x", 1), ("y", 2)] emptyVars "x" =
        applyCondParams intBoundVarTraits [("y", 2), ("x", 1)] emptyVars
          "x" :=
  ⟨dbStorage_query_where_binding_order.1 Nat
      (applyCondParams intBoundVarTraits [("x", 1), ("y", 2)] emptyVars)
      "b = :y AND a = :x" "b = ? AND a = ?"
      [mkBoundVar intBoundVarTraits 2, mkBoundVar intBoundVarTraits 1] rfl,
    dbStorage_query_where_binding_order.2.1 Nat intBoundVarTraits
      [("x", 1), ("y", 2)] [("y", 2), ("x", 1)] emptyVars "x" (by decide)
      (by decide)⟩

/-- Helper: the start/write interleaving keeps exactly the starts. -/
theorem filter_isStart_interleaved {σ : Type} (l : List σ) :
    (l.flatMap (fun s => [Event.startTransaction s, Event.write s])).filter
      isStart = l.map Event.startTransaction := by
  induction l with
  | nil => rfl
  | cons a t ih => simp [ih, isStart]

/-- Helper: the start/write interleaving keeps exactly the writes. -/
theorem filter_isWrite_interleaved {σ : Type} (l : List σ) :
    (l.flatMap (fun s => [Event.startTransaction s, Event.write s])).filter
      isWrite = l.map Event.write := by
  induction l with
  | nil => rfl
  | cons a t ih => simp [ih, isWrite]

/-- Helper: the trailing endTransaction block contains no starts/writes. -/
theorem filter_endBlock {σ : Type} (l : List σ) :
    (l.map Event.endTransaction).filter (@isStart σ) = []
    ∧ (l.map Event.endTransaction).filter (@isWrite σ) = []
    ∧ (l.map Event.endTransaction).filter (@isEnd σ) =
      l.map Event.endTransaction := by
  refine ⟨?_, ?_, ?_⟩ <;> induction l with
  | nil => rfl
  | cons a t ih => simp_all [isStart, isWrite, isEnd]

/-- Helper: the start/write interleaving contains no endTransaction. -/
theorem filter_isEnd_interleaved {σ : Type} (l : List σ) :
    (l.flatMap (fun s => [Event.startTransaction s, Event.write s])).filter
      isEnd = [] := by
  induction l with
  | nil => rfl
  | cons a t ih => simp [ih, isEnd]

/-- C4 counterexample: with a two-element storage list, a single persist
call (`iter = 0`, `len = 1`) interleaves the transaction starts with the
writes; it does not produce the phased sequence the claim asserts, in which
all starts precede the first write. -/
theorem persistence_persist_phase_counterexample :
    persistTrace [0, 1] 0 1 =
      [Event.startTransaction 0, Event.write 0, Event.startTransaction 1,
       Event.write 1, Event.endTransaction 0, Event.endTransaction 1] ∧
    persistTrace [0, 1] 0 1 ≠
      [Event.startTransaction 0, Event.startTransaction 1, Event.write 0,
       Event.write 1, Event.endTransaction 0, Event.endTransaction 1] := by
  decide

/-- C4 (amended): a single persist call (`iter = 0`, `len = 1`) performs,
for each Storage in list order, `startTransaction` immediately followed by
the formatter's `write` on that Storage, and after the loop `endTransaction`
on every Storage in list order; so each kind of call happens once per
Storage in list order and every write precedes every transaction end, but
the starts are interleaved with the writes rather than all preceding them. -/
theorem persistence_persist_trace :
    ∀ (σ : Type) (l : List σ),
      persistTrace l 0 1 =
        l.flatMap (fun s => [Event.startTransaction s, Event.write s])
          ++ l.map Event.endTransaction
      ∧ (persistTrace l 0 1).filter isStart = l.map Event.startTransaction
      ∧ (persistTrace l 0 1).filter isWrite = l.map Event.write
      ∧ (persistTrace l 0 1).filter isEnd = l.map Event.endTransaction := by
  intro σ l
  have hmain : persistTrace l 0 1 =
      l.flatMap (fun s => [Event.startTransaction s, Event.write s])
        ++ l.map Event.endTransaction := by
    simp [persistTrace]
  refine ⟨hmain, ?_, ?_, ?_⟩ <;>
    rw [hmain, List.filter_append] <;>
    simp [filter_isStart_interleaved, filter_isWrite_interleaved,
      filter_isEnd_interleaved, (filter_endBlock l).1, (filter_endBlock l).2.1,
      (filter_endBlock l).2.2]

/-- Helper: once an object exists, the retrieve loop never calls `read` and
calls `update` exactly once per remaining Storage, in order, while folding
the updates into the object. -/
theorem retrieveLoop_some {σ π : Type} (rd : σ → π) (upd : π → σ → π)
    (l : List σ) : ∀ o : π,
      (retrieveLoop rd upd (some o) l).2 = some (l.foldl upd o)
      ∧ ((retrieveLoop rd upd (some o) l).1).filter isReadCall = []
      ∧ ((retrieveLoop rd upd (some o) l).1).filter isUpdateCall =
        l.map Event.updateCall := by
  induction l with
  | nil => intro o; exact ⟨rfl, rfl, rfl⟩
  | cons a t ih =>
    intro o
    refine ⟨?_, ?_, ?_⟩ <;>
      simp [retrieveLoop, isReadCall, isUpdateCall, (ih (upd o a)).1,
        (ih (upd o a)).2.1, (ih (upd o a)).2.2]

/-- Helper: the endTransaction block contains no read/update calls. -/
theorem filter_endBlock_formatter {σ : Type} (l : List σ) :
    (l.map Event.endTransaction).filter (@isReadCall σ) = []
    ∧ (l.map Event.endTransaction).filter (@isUpdateCall σ) = [] := by
  constructor <;> induction l with
  | nil => rfl
  | cons a t ih => simp_all [isReadCall, isUpdateCall]

/-- Helper: a later supplier of a field shadows an earlier one. -/
theorem lastSupplied_cons (supplies : Nat → String → Option Nat) (a : Nat)
    (t : List Nat) (fld : String) :
    lastSupplied supplies (a :: t) fld =
      (lastSupplied supplies t fld).or (supplies a fld) := by
  unfold lastSupplied
  rw [List.reverse_cons, List.find?_append]
  cases hf : t.reverse.find? (fun s => (supplies s fld).isSome) with
  | some s =>
    have hp := List.find?_some hf
    obtain ⟨v, hv⟩ := Option.isSome_iff_exists.mp hp
    simp [hf, hv]
  | none =>
    cases hs : (supplies a fld) with
    | some v => simp [List.find?, hf, hs]
    | none => simp [List.find?, hf, hs]

/-- Helper: folding field updates over a list yields, at each field, the
last supplied value, falling back to the initial object. -/
theorem foldl_fieldUpdate (supplies : Nat → String → Option Nat)
    (l : List Nat) : ∀ (o : String → Option Nat) (fld : String),
      (l.foldl (fieldUpdate supplies) o) fld =
        (lastSupplied supplies l fld).or (o fld) := by
  induction l with
  | nil => intro o fld; simp [lastSupplied]
  | cons a t ih =>
    intro o fld
    rw [List.foldl_cons, ih, lastSupplied_cons]
    cases hl : lastSupplied supplies t fld with
    | some v => simp
    | none =>
      cases hs : supplies a fld with
      | some v => simp [fieldUpdate, hs]
      | none => simp [fieldUpdate, hs]

/-- C3: retrieving through a non-empty storage list constructs exactly one
object: the formatter `read` is called once, on the first Storage, the
formatter `update` is called once per subsequent Storage in list order on
the same threaded object (a left fold), and in the field-map formatter model
the retrieved value of each field is the one supplied by the last Storage in
the list that supplies it. -/
theorem persistence_unsafeRetrieve_single_construction :
    (∀ (σ π : Type) (rd : σ → π) (upd : π → σ → π) (s : σ) (rest : List σ),
      (unsafeRetrieve rd upd (s :: rest)).2 = some (rest.foldl upd (rd s))
      ∧ ((unsafeRetrieve rd upd (s :: rest)).1).filter isReadCall =
        [Event.readCall s]
      ∧ ((unsafeRetrieve rd upd (s :: rest)).1).filter isUpdateCall =
        rest.map Event.updateCall)
    ∧ (∀ (supplies : Nat → String → Option Nat) (s : Nat) (rest : List Nat)
        (fld : String),
        (unsafeRetrieve (fieldRead supplies) (fieldUpdate supplies)
          (s :: rest)).2.map (fun o => o fld) =
          some (lastSupplied supplies (s :: rest) fld)) := by
  have hbase : ∀ (σ π : Type) (rd : σ → π) (upd : π → σ → π) (s : σ)
      (rest : List σ),
      (unsafeRetrieve rd upd (s :: rest)).2 = some (rest.foldl upd (rd s))
      ∧ ((unsafeRetrieve rd upd (s :: rest)).1).filter isReadCall =
        [Event.readCall s]
      ∧ ((unsafeRetrieve rd upd (s :: rest)).1).filter isUpdateCall =
        rest.map Event.updateCall := by
    intro σ π rd upd s rest
    have hloop := retrieveLoop_some rd upd rest (rd s)
    have hunfold : unsafeRetrieve rd upd (s :: rest) =
        (Event.startTransaction s :: Event.readCall s ::
            (retrieveLoop rd upd (some (rd s)) rest).1
          ++ (s :: rest).map Event.endTransaction,
         (retrieveLoop rd upd (some (rd s)) rest).2) := rfl
    rw [hunfold]
    refine ⟨hloop.1, ?_, ?_⟩ <;>
      simp [List.filter_append, isReadCall, isUpdateCall, hloop.2.1,
        hloop.2.2, (filter_endBlock_formatter (s :: rest)).1,
        (filter_endBlock_formatter (s :: rest)).2]
  refine ⟨hbase, ?_⟩
  intro supplies s rest fld
  rw [(hbase Nat (String → Option Nat) (fieldRead supplies)
    (fieldUpdate supplies) s rest).1]
  rw [Option.map_some', foldl_fieldUpdate, lastSupplied_cons]
  rfl

/-- Helper: the utc2tai loop never yields 32 when no tested index selects
it: the fallthrough row is the final one (offset 33). -/
theorem utc2taiScan_ne_32 (n : Int) : ∀ (l : List Nat),
    (∀ i ∈ l, leapSecs (i - 1) ≠ 32) → utc2taiScan n l ≠ 32 := by
  intro l
  induction l with
  | nil => intro _; unfold utc2taiScan; decide
  | cons i rest ih =>
    intro h
    unfold utc2taiScan
    split_ifs with hc
    · exact h i (List.mem_cons_self i rest)
    · exact ih (fun j hj => h j (List.mem_cons_of_mem i hj))

/-- Helper: same for the tai2utc loop. -/
theorem tai2utcScan_ne_32 (n : Int) : ∀ (l : List Nat),
    (∀ i ∈ l, leapSecs (i - 1) ≠ 32) → tai2utcScan n l ≠ 32 := by
  intro l
  induction l with
  | nil => intro _; unfold tai2utcScan; decide
  | cons i rest ih =>
    intro h
    unfold tai2utcScan
    split_ifs with hc
    · exact h i (List.mem_cons_self i rest)
    · exact ih (fun j hj => h j (List.mem_cons_of_mem i hj))

/-- C2: the empirical-formula branch is taken exactly before the first
breakpoint, and instants after the last breakpoint get the final row's
offset — but the covering-row rule is violated between the last two
breakpoints: at the 1999-01-01 breakpoint (day 10592) the covering row's
offset is 32 while both conversions apply 33, and indeed the loop bound
`i < LEAP_SECS - 1` makes offset 32 unreachable for every instant, in
either conversion, contradicting the code's own documented table
(TAI-UTC = 32.0 from 1999 JAN 1 to 2006 JAN 1). -/
theorem dateTime_leap_covering_bug :
    (∀ n : Int, utc2taiOffset n = none ↔ n < leapWhen 0 * LL_NSEC_PER_DAY)
    ∧ (∀ n : Int, tai2utcOffset n = none ↔
        n < leapWhen 0 * LL_NSEC_PER_DAY + leapSecs 0 * 1000000000)
    ∧ utc2taiOffset (10592 * LL_NSEC_PER_DAY) = some 33
    ∧ specCoveringOffsetUTC (10592 * LL_NSEC_PER_DAY) = some 32
    ∧ tai2utcOffset (10592 * LL_NSEC_PER_DAY + 32 * 1000000000) = some 33
    ∧ specCoveringOffsetTAI (10592 * LL_NSEC_PER_DAY + 32 * 1000000000) =
        some 32
    ∧ utc2taiOffset (13149 * LL_NSEC_PER_DAY) = some 33
    ∧ specCoveringOffsetUTC (13149 * LL_NSEC_PER_DAY) = some 33
    ∧ utc2taiOffset (10043 * LL_NSEC_PER_DAY) = some 31
    ∧ specCoveringOffsetUTC (10043 * LL_NSEC_PER_DAY) = some 31
    ∧ (∀ n : Int, utc2taiOffset n ≠ some 32)
    ∧ (∀ n : Int, tai2utcOffset n ≠ some 32) := by
  refine ⟨?_, ?_, by decide, by decide, by decide, by decide, by decide,
    by decide, by decide, by decide, ?_, ?_⟩
  · intro n
    by_cases h : n < leapWhen 0 * LL_NSEC_PER_DAY <;>
      simp [utc2taiOffset, h]
  · intro n
    by_cases h : n < leapWhen 0 * LL_NSEC_PER_DAY + leapSecs 0 * 1000000000 <;>
      simp [tai2utcOffset, h]
  · intro n
    unfold utc2taiOffset
    split_ifs with h
    · simp
    · intro heq
      exact utc2taiScan_ne_32 n _ (by decide) (Option.some.inj heq)
  · intro n
    unfold tai2utcOffset
    split_ifs with h
    · simp
    · intro heq
      exact tai2utcScan_ne_32 n _ (by decide) (Option.some.inj heq)

set_option maxHeartbeats 2000000 in
/-- Helper: correctness of the year-of-era extraction of the civil
calendar: the extracted year's first day is at most `doe` and `doe` falls
within that year.  Proved by splitting the era into 4-year blocks (with a
century sub-split where a block straddles a century boundary). -/
theorem civilYoe_facts (doe : Int) (h0 : 0 ≤ doe) (h1 : doe ≤ 146096) :
    0 ≤ (doe - doe / 1460 + doe / 36524 - doe / 146096) / 365 ∧
    (doe - doe / 1460 + doe / 36524 - doe / 146096) / 365 ≤ 399 ∧
    365 * ((doe - doe / 1460 + doe / 36524 - doe / 146096) / 365) +
        ((doe - doe / 1460 + doe / 36524 - doe / 146096) / 365) / 4 -
        ((doe - doe / 1460 + doe / 36524 - doe / 146096) / 365) / 100 ≤ doe ∧
    doe - (365 * ((doe - doe / 1460 + doe / 36524 - doe / 146096) / 365) +
        ((doe - doe / 1460 + doe / 36524 - doe / 146096) / 365) / 4 -
        ((doe - doe / 1460 + doe / 36524 - doe / 146096) / 365) / 100) ≤
      365 := by
  obtain ⟨q, hqe⟩ : ∃ q, doe / 1460 = q := ⟨_, rfl⟩
  have hq0 : 0 ≤ q := by omega
  have hq1 : q ≤ 100 := by omega
  interval_cases q <;>
    first
      | omega
      | (obtain ⟨c, hce⟩ : ∃ c, doe / 36524 = c := ⟨_, rfl⟩;
         have hc0 : 0 ≤ c := by omega;
         have hc1 : c ≤ 4 := by omega;
         interval_cases c <;> omega)

/-- Helper: the day-of-era and year-of-era quantities of the civil
conversion satisfy the bounds the recomposition needs. -/
theorem cfdYoe_bundle (days : Int) :
    0 ≤ cfdDoe days ∧ cfdDoe days ≤ 146096 ∧ 0 ≤ cfdYoe days ∧
    cfdYoe days ≤ 399 ∧
    365 * cfdYoe days + cfdYoe days / 4 - cfdYoe days / 100 ≤ cfdDoe days ∧
    cfdDoe days -
        (365 * cfdYoe days + cfdYoe days / 4 - cfdYoe days / 100) ≤ 365 := by
  have h0 : 0 ≤ cfdDoe days := by unfold cfdDoe cfdEra; omega
  have h1 : cfdDoe days ≤ 146096 := by unfold cfdDoe cfdEra; omega
  have h := civilYoe_facts (cfdDoe days) h0 h1
  refine ⟨h0, h1, ?_, ?_, ?_, ?_⟩ <;> unfold cfdYoe
  · exact h.1
  · exact h.2.1
  · exact h.2.2.1
  · exact h.2.2.2

/-- Helper: the days-from-civil direction recomposes the era, year, month
and day extracted by the civil-from-days direction. -/
theorem daysFromCivil_recompose (doe era yoe doy mp m d y : Int)
    (hy0 : 0 ≤ yoe) (hy1 : yoe ≤ 399)
    (hf1 : 365 * yoe + yoe / 4 - yoe / 100 ≤ doe)
    (hf2 : doe - (365 * yoe + yoe / 4 - yoe / 100) ≤ 365)
    (hdoy : doy = doe - (365 * yoe + yoe / 4 - yoe / 100))
    (hmp : mp = (5 * doy + 2) / 153)
    (hd : d = doy - (153 * mp + 2) / 5 + 1)
    (hm : m = mp + (if mp < 10 then 3 else -9))
    (hy : y = (if m ≤ 2 then yoe + era * 400 + 1 else yoe + era * 400)) :
    daysFromCivil y m d = era * 146097 + doe - 719468 := by
  have hmp0 : 0 ≤ mp := by omega
  have hmp1 : mp ≤ 11 := by omega
  have hY2 : dfcY2 y m = yoe + era * 400 := by
    unfold dfcY2
    by_cases hc : mp < 10
    · rw [if_pos hc] at hm
      rw [if_neg (by omega)]
      rw [hy, if_neg (by omega)]
    · rw [if_neg hc] at hm
      rw [if_pos (by omega)]
      rw [hy, if_pos (by omega)]
      ring
  have hEra2 : dfcEra y m = era := by
    unfold dfcEra
    rw [hY2]
    omega
  have hYoe2 : dfcYoe y m = yoe := by
    unfold dfcYoe
    rw [hY2, hEra2]
    ring
  have hDoy2 : dfcDoy m d = doy := by
    unfold dfcDoy
    by_cases hc : mp < 10
    · rw [if_pos hc] at hm
      rw [if_pos (by omega)]
      rw [show m + -3 = mp by omega]
      omega
    · rw [if_neg hc] at hm
      rw [if_neg (by omega)]
      rw [show m + 9 = mp by omega]
      omega
  have hDoe2 : dfcDoe y m d = doe := by
    unfold dfcDoe
    rw [hYoe2, hDoy2]
    omega
  unfold daysFromCivil
  rw [hEra2, hDoe2]

/-- Helper: the spec-modelled civil calendar is invertible on epoch days. -/
theorem daysFromCivil_civilFromDays (z : Int) :
    daysFromCivil (cfdYear z) (cfdMonth z) (cfdDay z) = z := by
  have hb := cfdYoe_bundle z
  have h := daysFromCivil_recompose (cfdDoe z) (cfdEra z) (cfdYoe z)
    (cfdDoy z) (cfdMp z) (cfdMonth z) (cfdDay z) (cfdYear z)
    hb.2.2.1 hb.2.2.2.1 hb.2.2.2.2.1 hb.2.2.2.2.2 rfl rfl rfl rfl rfl
  rw [h]
  unfold cfdDoe
  ring

/-- C7 counterexample: a TemporalValue of 1 nanosecond marshals into a
civil record whose unmarshaling yields 0 nanoseconds — the round trip is
not exact for sub-second nanoseconds. -/
theorem dbStorage_dateTime_subsecond_counterexample :
    nextDateTime (setColumnDateTime 1) = 0 ∧ (0 : Int) ≠ 1 := by
  constructor
  · decide
  · decide

/-- C7 (amended): for every TemporalValue with a nonnegative nanosecond
count, marshaling via `setColumn<DateTime>` and unmarshaling via `next()`
yields the original truncated to whole seconds: the sub-second remainder is
marshaled into `second_part` (as microseconds) but `next()` never reads it,
so the round trip is exact precisely when the sub-second part is zero. -/
theorem dbStorage_dateTime_roundtrip :
    ∀ nsecs : Int, 0 ≤ nsecs →
      nextDateTime (setColumnDateTime nsecs) = nsecs - nsecs % 1000000000
      ∧ (setColumnDateTime nsecs).second_part = nsecs % 1000000000 / 1000
      ∧ (nsecs % 1000000000 = 0 →
          nextDateTime (setColumnDateTime nsecs) = nsecs) := by
  intro n hn
  have hkey : nextDateTime (setColumnDateTime n) =
      n / 1000000000 * 1000000000 := by
    unfold nextDateTime setColumnDateTime
    dsimp only [civilFromDays]
    rw [daysFromCivil_civilFromDays (n / 1000000000 / 86400)]
    omega
  refine ⟨by omega, rfl, by omega⟩

/-- C7 witness: the amended theorem applied at one whole second
(1000000000 ns), where the round trip is exact. -/
theorem dbStorage_dateTime_roundtrip_witness :
    nextDateTime (setColumnDateTime 1000000000) = 1000000000 :=
  (dbStorage_dateTime_roundtrip 1000000000 (by decide)).2.2 (by decide)

/-- C9: for every open query with `N` result columns, the out-of-band
accessors `getColumnByPos` and `columnIsNull` take the Nonexistent-column
error branch exactly when `pos > N`; in particular the boundary `pos = N`
(one past the last valid zero-based index) is not rejected. -/
theorem dbStorage_columnPos_bounds :
    ∀ (pos numFields : Int) (nulls : Int → Bool),
      (exceptOk (getColumnByPosCheck pos numFields) = false ↔ pos > numFields)
      ∧ (exceptOk (columnIsNull pos numFields nulls) = false ↔
          pos > numFields)
      ∧ getColumnByPosCheck numFields numFields = .ok ()
      ∧ columnIsNull numFields numFields nulls = .ok (nulls numFields) := by
  intro pos n nulls
  refine ⟨?_, ?_, ?_, ?_⟩ <;>
    simp [getColumnByPosCheck, columnIsNull, exceptOk] <;>
    split_ifs with h <;> simp_all [exceptOk]
